import Mathlib

/-!
Verification of the dnspin hosts-file merge engine (dnspin.go).

Shallow embedding: a file is its list of lines (the Go code scans the file
line by line with bufio.Scanner, which strips the newline). The scanner,
mapping parser, renderer and rewrite decision of writeHostsFile, the
configuration loader loadHostConfig, and the answer classification of
lookupIP are translated from the Go source. Go maps holding string keys
and values are embedded as association lists with unique keys, updated in
place by upsert; Go's strings.Fields and strings.HasPrefix are embedded
over the character list of the string.
-/

/- String constants of dnspin.go, lines 21-30. -/

def NIL : String := "NIL"

def ERROR : String := "ERROR"

def MISSING : String := "MISSING"

def DNSPIN_BEGIN : String := "### DNSPIN BEGIN ###"

def DNSPIN_END : String := "### DNSPIN END #####"

def PRE_PIN : Nat := 0

def IN_PIN : Nat := 1

def POST_PIN : Nat := 2

/-- The host_config struct of dnspin.go, lines 15-19. -/
structure host_config where
  hostname : String
  dns_server : String
  ip_address : String
  deriving DecidableEq

/-- The code points Go's unicode.IsSpace treats as white space;
strings.Fields splits on runs of these. -/
def isGoSpace (c : Char) : Bool :=
  c == ' ' || c == '\t' || c == '\n' || c.toNat == 11 || c.toNat == 12 || c == '\r' ||
  c.toNat == 0x85 || c.toNat == 0xA0 || c.toNat == 0x1680 ||
  (decide (0x2000 ≤ c.toNat) && decide (c.toNat ≤ 0x200A)) ||
  c.toNat == 0x2028 || c.toNat == 0x2029 || c.toNat == 0x202F ||
  c.toNat == 0x205F || c.toNat == 0x3000

/-- Character-list version of Go's strings.HasPrefix: does the second list
start with the first. -/
def charsStart : List Char → List Char → Bool
  | [], _ => true
  | _ :: _, [] => false
  | p :: ps, c :: cs => p == c && charsStart ps cs

/-- Go's strings.HasPrefix s p. -/
def goStartsWith (s p : String) : Bool := charsStart p.data s.data

/-- Worker for Go's strings.Fields: splits a character list into its maximal
runs of non-space characters; acc holds the current run, reversed. -/
def wordsAux : List Char → List Char → List (List Char)
  | [], acc => if acc.isEmpty then [] else [acc.reverse]
  | c :: rest, acc =>
    if isGoSpace c then
      if acc.isEmpty then wordsAux rest [] else acc.reverse :: wordsAux rest []
    else
      wordsAux rest (c :: acc)

/-- Go's strings.Fields. -/
def fields (s : String) : List String := (wordsAux s.data []).map String.mk

/-- The scanning state of writeHostsFile, dnspin.go lines 90-94: the location
constant and the three line slices. -/
structure ScanState where
  location : Nat
  pre_lines : List String
  pin_lines : List String
  post_lines : List String
  deriving DecidableEq

/-- One iteration of the scanning loop of writeHostsFile, dnspin.go lines
97-114, translated branch by branch; in particular line 111 is
`pin_lines = append(post_lines, line)`, which assigns the extension of
post_lines (never itself reassigned, hence still empty) to pin_lines. -/
def scanStep (s : ScanState) (line : String) : ScanState :=
  if line = DNSPIN_BEGIN then { s with location := IN_PIN }
  else if line = DNSPIN_END then { s with location := POST_PIN }
  else if s.location = PRE_PIN then { s with pre_lines := s.pre_lines ++ [line] }
  else if s.location = IN_PIN then
    (if goStartsWith line "#" then s else { s with pin_lines := s.pin_lines ++ [line] })
  else if s.location = POST_PIN then { s with pin_lines := s.post_lines ++ [line] }
  else s

/-- The whole scanning loop of writeHostsFile over the current file content. -/
def scanFile (lines : List String) : ScanState :=
  lines.foldl scanStep ⟨PRE_PIN, [], [], []⟩

/-- Go map assignment m[k] = v on an association list with unique keys:
replace the value of an existing key in place, otherwise add the pair. -/
def upsert : List (String × String) → String → String → List (String × String)
  | [], k, v => [(k, v)]
  | (k2, v2) :: rest, k, v =>
    if k2 = k then (k, v) :: rest else (k2, v2) :: upsert rest k v

/-- Body of the current_mappings loop of writeHostsFile, dnspin.go lines
118-125: a line with exactly two fields contributes fields[1] as key and
fields[0] as value. -/
def parseMappingsStep (m : List (String × String)) (line : String) : List (String × String) :=
  match fields line with
  | [f0, f1] => upsert m f1 f0
  | _ => m

/-- current_mappings of writeHostsFile, dnspin.go lines 117-125. -/
def parseMappings (lines : List String) : List (String × String) :=
  lines.foldl parseMappingsStep []

/-- Per-host rewrite check of writeHostsFile, dnspin.go lines 130-131:
the host is missing from current_mappings or mapped to a different IP. -/
def hostChanged (current_mappings : List (String × String)) (h : host_config) : Bool :=
  match List.lookup h.hostname current_mappings with
  | none => true
  | some ip => decide (ip ≠ h.ip_address)

/-- needs_rewrite of writeHostsFile, dnspin.go lines 128-135. -/
def needs_rewrite (current_mappings : List (String × String)) (hosts : List host_config) : Bool :=
  decide (current_mappings.length ≠ hosts.length) || hosts.any (hostChanged current_mappings)

/-- The lines the entry loop of writeHostsFile, dnspin.go lines 166-179,
emits for one host: on ERROR a cached-fallback comment plus the cached
mapping when current_mappings has one, otherwise a failure comment only;
nothing on MISSING; otherwise the mapping line ip TAB hostname. -/
def renderHost (current_mappings : List (String × String)) (h : host_config) : List String :=
  if h.ip_address = ERROR then
    match List.lookup h.hostname current_mappings with
    | some ip =>
        ["# " ++ h.hostname ++ ": cached value, error during lookup to " ++ h.dns_server,
         ip ++ "\t" ++ h.hostname]
    | none => ["# " ++ h.hostname ++ ": error during lookup to " ++ h.dns_server]
  else if h.ip_address = MISSING then []
  else [h.ip_address ++ "\t" ++ h.hostname]

/-- The managed-region lines written between the sentinels, dnspin.go lines
166-179, in host list order. -/
def renderRegion (current_mappings : List (String × String)) (hosts : List host_config) :
    List String :=
  (hosts.map (renderHost current_mappings)).flatten

/-- writeHostsFile, dnspin.go lines 82-200, as a function from the current
content of /etc/hosts (as lines) and the host list to its effect on the
file: none when needs_rewrite is false and the file is left untouched,
some newLines when the file is atomically replaced by newLines. -/
def writeHostsFileModel (fileLines : List String) (hosts : List host_config) :
    Option (List String) :=
  let s := scanFile fileLines
  let current_mappings := parseMappings s.pin_lines
  if needs_rewrite current_mappings hosts then
    some (s.pre_lines ++ [DNSPIN_BEGIN] ++ renderRegion current_mappings hosts ++
          [DNSPIN_END] ++ s.post_lines)
  else none

/-- Worker for loadHostConfig, dnspin.go lines 59-77: lineno is incremented
before each line is examined, so the first line carries number 1. -/
def loadHostConfigAux : List String → Nat → List host_config →
    Except String (List host_config)
  | [], _, acc => .ok acc
  | line :: rest, lineno, acc =>
    if !line.data.isEmpty && !goStartsWith line "#" then
      match fields line with
      | [hn, srv] => loadHostConfigAux rest (lineno + 1) (acc ++ [⟨hn, srv, NIL⟩])
      | _ => .error ("Unexpected input on line " ++ toString lineno ++ ": " ++ line)
    else
      loadHostConfigAux rest (lineno + 1) acc

/-- loadHostConfig, dnspin.go lines 50-80, over the configuration file
content as lines. -/
def loadHostConfig (lines : List String) : Except String (List host_config) :=
  loadHostConfigAux lines 1 []

/-- One answer record of the DNS reply: an A record with its address string,
or any other record type. -/
inductive DnsAnswer where
  | A (addr : String)
  | other
  deriving DecidableEq

/-- The answer loop of lookupIP, dnspin.go lines 40-47: the address of the
first A record, else the MISSING marker. -/
def firstA : List DnsAnswer → String
  | [] => MISSING
  | .A addr :: _ => addr
  | .other :: rest => firstA rest

/-- lookupIP, dnspin.go lines 32-48, as a function of the Exchange outcome
(the network call itself is the input): a failed exchange is returned as
the error, a successful one is classified by its answer records. -/
def lookupIP_classify (exch : Except String (List DnsAnswer)) : Except String String :=
  match exch with
  | .error e => .error e
  | .ok answers => .ok (firstA answers)

/-- The A records of a reply, in answer order. -/
def aRecords (answers : List DnsAnswer) : List String :=
  answers.filterMap fun a =>
    match a with
    | .A s => some s
    | .other => none

/-- The target file of writeHostsFile, dnspin.go lines 84 and 194. -/
def hostsFilePath : String := "/etc/hosts"

/-- The directory handed to ioutil.TempFile by writeHostsFile, dnspin.go
line 143. -/
def tempFileDir : String := "/tmp"

/-- The directory component of a slash-separated path: everything before
the last slash. -/
def dirname (p : String) : String :=
  String.mk (((p.data.reverse.dropWhile fun c => !(c == '/')).drop 1).reverse)

/-- The hostname-to-IP mapping determined by a host list, later entries
overriding earlier ones with the same hostname; the reference point of the
round-trip claim. -/
def hostsToMapping (hosts : List host_config) : List (String × String) :=
  hosts.foldl (fun m h => upsert m h.hostname h.ip_address) []

/-- A line that is neither sentinel of the managed region. -/
def noSentinel (l : String) : Prop := l ≠ DNSPIN_BEGIN ∧ l ≠ DNSPIN_END

instance (l : String) : Decidable (noSentinel l) :=
  inferInstanceAs (Decidable (l ≠ DNSPIN_BEGIN ∧ l ≠ DNSPIN_END))

/-! ## Basic string and list facts used throughout -/

theorem string_data_append (a b : String) : (a ++ b).data = a.data ++ b.data := by
  cases a
  cases b
  rfl

theorem string_mk_data (s : String) : String.mk s.data = s := rfl

theorem mapping_line_ne_begin (ip h : String) : ip ++ "\t" ++ h ≠ DNSPIN_BEGIN := by
  intro he
  have hd : (ip ++ "\t" ++ h).data = DNSPIN_BEGIN.data := by rw [he]
  rw [string_data_append, string_data_append] at hd
  have hmem : '\t' ∈ DNSPIN_BEGIN.data := by
    rw [← hd]
    exact List.mem_append_left _ (List.mem_append_right _ (by decide))
  revert hmem
  decide

theorem mapping_line_ne_end (ip h : String) : ip ++ "\t" ++ h ≠ DNSPIN_END := by
  intro he
  have hd : (ip ++ "\t" ++ h).data = DNSPIN_END.data := by rw [he]
  rw [string_data_append, string_data_append] at hd
  have hmem : '\t' ∈ DNSPIN_END.data := by
    rw [← hd]
    exact List.mem_append_left _ (List.mem_append_right _ (by decide))
  revert hmem
  decide

theorem comment_line_ne_begin (rest : String) : "# " ++ rest ≠ DNSPIN_BEGIN := by
  obtain ⟨cs⟩ := rest
  intro he
  have hd : ("# " ++ String.mk cs).data.get? 1 = DNSPIN_BEGIN.data.get? 1 :=
    congrArg (fun l : List Char => l.get? 1) (congrArg String.data he)
  have h2 : (some ' ' : Option Char) = some '#' := hd
  exact absurd h2 (by decide)

theorem comment_line_ne_end (rest : String) : "# " ++ rest ≠ DNSPIN_END := by
  obtain ⟨cs⟩ := rest
  intro he
  have hd : ("# " ++ String.mk cs).data.get? 1 = DNSPIN_END.data.get? 1 :=
    congrArg (fun l : List Char => l.get? 1) (congrArg String.data he)
  have h2 : (some ' ' : Option Char) = some '#' := hd
  exact absurd h2 (by decide)

/-! ## Scanner facts -/

theorem scanStep_post_lines (s : ScanState) (line : String) :
    (scanStep s line).post_lines = s.post_lines := by
  unfold scanStep
  split_ifs <;> rfl

theorem foldl_scanStep_post_lines (lines : List String) :
    ∀ s : ScanState, (List.foldl scanStep s lines).post_lines = s.post_lines := by
  induction lines with
  | nil => intro s; rfl
  | cons l ls ih => intro s; rw [List.foldl_cons, ih, scanStep_post_lines]

theorem scanFile_post_lines (lines : List String) : (scanFile lines).post_lines = [] :=
  foldl_scanStep_post_lines lines _

theorem scanStep_no_sentinel (s : ScanState) (line : String)
    (h1 : ∀ l ∈ s.pre_lines, noSentinel l) (h2 : ∀ l ∈ s.pin_lines, noSentinel l)
    (h3 : ∀ l ∈ s.post_lines, noSentinel l) :
    (∀ l ∈ (scanStep s line).pre_lines, noSentinel l) ∧
    (∀ l ∈ (scanStep s line).pin_lines, noSentinel l) ∧
    (∀ l ∈ (scanStep s line).post_lines, noSentinel l) := by
  by_cases hb : line = DNSPIN_BEGIN
  · unfold scanStep
    rw [if_pos hb]
    exact ⟨h1, h2, h3⟩
  · by_cases he : line = DNSPIN_END
    · unfold scanStep
      rw [if_neg hb, if_pos he]
      exact ⟨h1, h2, h3⟩
    · have hns : noSentinel line := ⟨hb, he⟩
      unfold scanStep
      rw [if_neg hb, if_neg he]
      split_ifs with hpre hin hcom hpost
      · refine ⟨?_, h2, h3⟩
        intro l hl
        rcases List.mem_append.1 hl with h | h
        · exact h1 l h
        · rw [List.mem_singleton.1 h]; exact hns
      · exact ⟨h1, h2, h3⟩
      · refine ⟨h1, ?_, h3⟩
        intro l hl
        rcases List.mem_append.1 hl with h | h
        · exact h2 l h
        · rw [List.mem_singleton.1 h]; exact hns
      · refine ⟨h1, ?_, h3⟩
        intro l hl
        rcases List.mem_append.1 hl with h | h
        · exact h3 l h
        · rw [List.mem_singleton.1 h]; exact hns
      · exact ⟨h1, h2, h3⟩

theorem foldl_scanStep_no_sentinel (lines : List String) :
    ∀ s : ScanState,
      (∀ l ∈ s.pre_lines, noSentinel l) → (∀ l ∈ s.pin_lines, noSentinel l) →
      (∀ l ∈ s.post_lines, noSentinel l) →
      (∀ l ∈ (List.foldl scanStep s lines).pre_lines, noSentinel l) ∧
      (∀ l ∈ (List.foldl scanStep s lines).pin_lines, noSentinel l) ∧
      (∀ l ∈ (List.foldl scanStep s lines).post_lines, noSentinel l) := by
  induction lines with
  | nil => intro s h1 h2 h3; exact ⟨h1, h2, h3⟩
  | cons l ls ih =>
    intro s h1 h2 h3
    obtain ⟨g1, g2, g3⟩ := scanStep_no_sentinel s l h1 h2 h3
    exact ih (scanStep s l) g1 g2 g3

theorem scanFile_no_sentinel (lines : List String) :
    (∀ l ∈ (scanFile lines).pre_lines, noSentinel l) ∧
    (∀ l ∈ (scanFile lines).pin_lines, noSentinel l) ∧
    (∀ l ∈ (scanFile lines).post_lines, noSentinel l) :=
  foldl_scanStep_no_sentinel lines _ (by simp) (by simp) (by simp)

theorem foldl_scanStep_pre (lines : List String) :
    ∀ s : ScanState, s.location = PRE_PIN → (∀ l ∈ lines, noSentinel l) →
      List.foldl scanStep s lines = { s with pre_lines := s.pre_lines ++ lines } := by
  induction lines with
  | nil =>
    intro s _ _
    simp only [List.foldl_nil, List.append_nil]
  | cons l ls ih =>
    intro s hloc hns
    have h := hns l (by simp)
    have hstep : scanStep s l = { s with pre_lines := s.pre_lines ++ [l] } := by
      unfold scanStep
      rw [if_neg h.1, if_neg h.2, if_pos hloc]
    rw [List.foldl_cons, hstep, ih _ (by simp [hloc]) (fun x hx => hns x (by simp [hx]))]
    simp

theorem foldl_scanStep_in (lines : List String) :
    ∀ s : ScanState, s.location = IN_PIN → (∀ l ∈ lines, noSentinel l) →
      List.foldl scanStep s lines =
        { s with pin_lines := s.pin_lines ++ lines.filter (fun l => !goStartsWith l "#") } := by
  induction lines with
  | nil =>
    intro s _ _
    simp only [List.foldl_nil, List.filter_nil, List.append_nil]
  | cons l ls ih =>
    intro s hloc hns
    have h := hns l (by simp)
    have hnp : ¬s.location = PRE_PIN := by rw [hloc]; decide
    by_cases hc : goStartsWith l "#"
    · have hstep : scanStep s l = s := by
        unfold scanStep
        rw [if_neg h.1, if_neg h.2, if_neg hnp, if_pos hloc, if_pos hc]
      rw [List.foldl_cons, hstep, ih _ hloc (fun x hx => hns x (by simp [hx]))]
      simp [List.filter_cons, hc]
    · have hstep : scanStep s l = { s with pin_lines := s.pin_lines ++ [l] } := by
        unfold scanStep
        rw [if_neg h.1, if_neg h.2, if_neg hnp, if_pos hloc, if_neg hc]
      rw [List.foldl_cons, hstep, ih _ (by simp [hloc]) (fun x hx => hns x (by simp [hx]))]
      simp [List.filter_cons, hc]

theorem scanFile_no_sentinel_file (lines : List String) (h : ∀ l ∈ lines, noSentinel l) :
    scanFile lines = ⟨PRE_PIN, lines, [], []⟩ := by
  have hres := foldl_scanStep_pre lines ⟨PRE_PIN, [], [], []⟩ rfl h
  simpa [scanFile] using hres

theorem scanFile_region (body : List String) (h : ∀ l ∈ body, noSentinel l) :
    scanFile ([DNSPIN_BEGIN] ++ body ++ [DNSPIN_END]) =
      ⟨POST_PIN, [], body.filter (fun l => !goStartsWith l "#"), []⟩ := by
  unfold scanFile
  rw [List.foldl_append, List.foldl_append]
  have h1 : List.foldl scanStep ⟨PRE_PIN, [], [], []⟩ [DNSPIN_BEGIN] =
      ⟨IN_PIN, [], [], []⟩ := by decide
  rw [h1, foldl_scanStep_in body ⟨IN_PIN, [], [], []⟩ rfl h]
  have h2 : ∀ pin : List String,
      List.foldl scanStep ⟨IN_PIN, [], pin, []⟩ [DNSPIN_END] = ⟨POST_PIN, [], pin, []⟩ := by
    intro pin
    show scanStep ⟨IN_PIN, [], pin, []⟩ DNSPIN_END = _
    unfold scanStep
    rw [if_neg (by decide), if_pos rfl]
  exact h2 _

/-! ## strings.Fields on a mapping line -/

theorem wordsAux_word (w : List Char) :
    ∀ (cs acc : List Char), (∀ c ∈ w, isGoSpace c = false) →
      wordsAux (w ++ cs) acc = wordsAux cs (w.reverse ++ acc) := by
  induction w with
  | nil => intro cs acc _; simp
  | cons c w ih =>
    intro cs acc hw
    have hc : isGoSpace c = false := hw c (by simp)
    have hw2 : ∀ x ∈ w, isGoSpace x = false := fun x hx => hw x (by simp [hx])
    rw [List.cons_append]
    show (if isGoSpace c then _ else wordsAux (w ++ cs) (c :: acc)) = _
    rw [hc]
    simp only [Bool.false_eq_true, if_false]
    rw [ih cs (c :: acc) hw2]
    simp [List.append_assoc]

theorem wordsAux_nil_acc (acc : List Char) (h : ¬acc = []) :
    wordsAux [] acc = [acc.reverse] := by
  cases acc with
  | nil => exact absurd rfl h
  | cons a as => rfl

theorem wordsAux_space (c : Char) (cs acc : List Char) (hc : isGoSpace c = true)
    (h : ¬acc = []) : wordsAux (c :: cs) acc = acc.reverse :: wordsAux cs [] := by
  cases acc with
  | nil => exact absurd rfl h
  | cons a as =>
    show (if isGoSpace c then _ else _) = _
    rw [hc]
    rfl

theorem fields_mapping_line (ip host : String)
    (hip : ip.data ≠ []) (hhost : host.data ≠ [])
    (hip2 : ∀ c ∈ ip.data, isGoSpace c = false)
    (hhost2 : ∀ c ∈ host.data, isGoSpace c = false) :
    fields (ip ++ "\t" ++ host) = [ip, host] := by
  obtain ⟨ics⟩ := ip
  obtain ⟨hcs⟩ := host
  simp only [String.data] at hip hhost hip2 hhost2
  have hdata : ((String.mk ics ++ "\t") ++ String.mk hcs).data = ics ++ '\t' :: hcs := by
    show (ics ++ ['\t']) ++ hcs = ics ++ '\t' :: hcs
    rw [List.append_assoc]
    rfl
  unfold fields
  rw [hdata]
  rw [wordsAux_word ics ('\t' :: hcs) [] hip2]
  rw [List.append_nil]
  rw [wordsAux_space '\t' hcs ics.reverse (by decide)
        (by simpa using hip)]
  rw [List.reverse_reverse]
  have hlast : wordsAux hcs [] = [hcs] := by
    have h2 := wordsAux_word hcs [] [] hhost2
    rw [List.append_nil] at h2
    rw [h2, List.append_nil, wordsAux_nil_acc hcs.reverse (by simpa using hhost)]
    rw [List.reverse_reverse]
  rw [hlast]
  rfl

theorem mapping_line_not_comment (ip host : String) (hne : ip.data ≠ [])
    (hh : goStartsWith ip "#" = false) :
    goStartsWith (ip ++ "\t" ++ host) "#" = false := by
  obtain ⟨ics⟩ := ip
  obtain ⟨hcs⟩ := host
  simp only [String.data] at hne
  cases ics with
  | nil => exact absurd rfl hne
  | cons i is =>
    have hdata : ((String.mk (i :: is) ++ "\t") ++ String.mk hcs).data =
        i :: (is ++ '\t' :: hcs) := by
      show ((i :: is) ++ ['\t']) ++ hcs = i :: (is ++ '\t' :: hcs)
      rw [List.append_assoc]
      rfl
    unfold goStartsWith at hh ⊢
    rw [hdata]
    show (('#' == i) && charsStart [] (is ++ '\t' :: hcs)) = false
    have : (('#' == i) && charsStart [] is) = false := hh
    rcases Bool.and_eq_false_iff.1 this with h | h
    · rw [h]; rfl
    · cases charsStart [] is <;> simp_all [charsStart]

/-! ## Renderer facts -/

theorem string_eq_of_data {a b : String} (h : a.data = b.data) : a = b := by
  cases a
  cases b
  exact congrArg String.mk h

theorem string_append_assoc (a b c : String) : a ++ b ++ c = a ++ (b ++ c) := by
  apply string_eq_of_data
  rw [string_data_append, string_data_append, string_data_append, string_data_append,
    List.append_assoc]

theorem renderRegion_append (m : List (String × String)) (a b : List host_config) :
    renderRegion m (a ++ b) = renderRegion m a ++ renderRegion m b := by
  simp [renderRegion]

theorem renderRegion_cons (m : List (String × String)) (h : host_config)
    (hs : List host_config) :
    renderRegion m (h :: hs) = renderHost m h ++ renderRegion m hs := by
  simp [renderRegion]

theorem renderRegion_nil (m : List (String × String)) : renderRegion m [] = [] := rfl

theorem renderHost_resolved (m : List (String × String)) (h : host_config)
    (h1 : h.ip_address ≠ ERROR) (h2 : h.ip_address ≠ MISSING) :
    renderHost m h = [h.ip_address ++ "\t" ++ h.hostname] := by
  unfold renderHost
  rw [if_neg h1, if_neg h2]

theorem renderRegion_resolved (m : List (String × String)) (hosts : List host_config)
    (hres : ∀ h ∈ hosts, h.ip_address ≠ ERROR ∧ h.ip_address ≠ MISSING) :
    renderRegion m hosts = hosts.map fun h => h.ip_address ++ "\t" ++ h.hostname := by
  induction hosts with
  | nil => rfl
  | cons h hs ih =>
    obtain ⟨h1, h2⟩ := hres h (by simp)
    rw [renderRegion_cons, renderHost_resolved m h h1 h2, List.map_cons,
      ih (fun x hx => hres x (by simp [hx]))]
    rfl

theorem comment_no_sentinel (hn mid srv : String) :
    noSentinel ("# " ++ hn ++ mid ++ srv) := by
  rw [string_append_assoc, string_append_assoc]
  exact ⟨comment_line_ne_begin _, comment_line_ne_end _⟩

theorem renderHost_no_sentinel (m : List (String × String)) (h : host_config) :
    ∀ l ∈ renderHost m h, noSentinel l := by
  unfold renderHost
  split_ifs with he hm
  · cases hlk : List.lookup h.hostname m with
    | none =>
      intro l hl
      rw [List.mem_singleton.1 hl]
      exact comment_no_sentinel h.hostname ": error during lookup to " h.dns_server
    | some ip =>
      intro l hl
      rcases List.mem_cons.1 hl with h1 | h1
      · rw [h1]
        exact comment_no_sentinel h.hostname ": cached value, error during lookup to "
          h.dns_server
      · rw [List.mem_singleton.1 h1]
        exact ⟨mapping_line_ne_begin _ _, mapping_line_ne_end _ _⟩
  · intro l hl
    exact absurd hl (List.not_mem_nil l)
  · intro l hl
    rw [List.mem_singleton.1 hl]
    exact ⟨mapping_line_ne_begin _ _, mapping_line_ne_end _ _⟩

theorem renderRegion_no_sentinel (m : List (String × String)) (hosts : List host_config) :
    ∀ l ∈ renderRegion m hosts, noSentinel l := by
  induction hosts with
  | nil => intro l hl; exact absurd hl (List.not_mem_nil l)
  | cons h hs ih =>
    rw [renderRegion_cons]
    intro l hl
    rcases List.mem_append.1 hl with h1 | h1
    · exact renderHost_no_sentinel m h l h1
    · exact ih l h1

/-! ## Parser facts -/

theorem foldl_parse_mapping_lines (hosts : List host_config) :
    ∀ acc : List (String × String),
      (∀ h ∈ hosts, h.ip_address.data ≠ [] ∧ h.hostname.data ≠ [] ∧
        (∀ c ∈ h.ip_address.data, isGoSpace c = false) ∧
        (∀ c ∈ h.hostname.data, isGoSpace c = false)) →
      List.foldl parseMappingsStep acc
          (hosts.map fun h => h.ip_address ++ "\t" ++ h.hostname) =
        hosts.foldl (fun m h => upsert m h.hostname h.ip_address) acc := by
  induction hosts with
  | nil => intro acc _; rfl
  | cons h hs ih =>
    intro acc hw
    obtain ⟨w1, w2, w3, w4⟩ := hw h (by simp)
    rw [List.map_cons, List.foldl_cons, List.foldl_cons]
    have hstep : parseMappingsStep acc (h.ip_address ++ "\t" ++ h.hostname) =
        upsert acc h.hostname h.ip_address := by
      unfold parseMappingsStep
      rw [fields_mapping_line h.ip_address h.hostname w1 w2 w3 w4]
    rw [hstep]
    exact ih _ (fun x hx => hw x (by simp [hx]))

theorem filter_mapping_lines (hosts : List host_config)
    (h : ∀ h2 ∈ hosts, h2.ip_address.data ≠ [] ∧ goStartsWith h2.ip_address "#" = false) :
    (hosts.map fun h2 => h2.ip_address ++ "\t" ++ h2.hostname).filter
        (fun l => !goStartsWith l "#") =
      hosts.map fun h2 => h2.ip_address ++ "\t" ++ h2.hostname := by
  induction hosts with
  | nil => rfl
  | cons x hs ih =>
    obtain ⟨h1, h2⟩ := h x (by simp)
    rw [List.map_cons, List.filter_cons]
    rw [mapping_line_not_comment x.ip_address x.hostname h1 h2]
    rw [ih (fun y hy => h y (by simp [hy]))]
    rfl

theorem mapping_lines_no_sentinel (hosts : List host_config) :
    ∀ l ∈ hosts.map (fun h => h.ip_address ++ "\t" ++ h.hostname), noSentinel l := by
  intro l hl
  obtain ⟨h, _, rfl⟩ := List.mem_map.1 hl
  exact ⟨mapping_line_ne_begin _ _, mapping_line_ne_end _ _⟩

/-! ## The rewrite decision -/

theorem writeHostsFileModel_eq (fileLines : List String) (hosts : List host_config) :
    writeHostsFileModel fileLines hosts =
      if needs_rewrite (parseMappings (scanFile fileLines).pin_lines) hosts then
        some ((scanFile fileLines).pre_lines ++ [DNSPIN_BEGIN] ++
          renderRegion (parseMappings (scanFile fileLines).pin_lines) hosts ++
          [DNSPIN_END] ++ (scanFile fileLines).post_lines)
      else none := rfl

theorem hostChanged_eq_false_iff (m : List (String × String)) (h : host_config) :
    hostChanged m h = false ↔ List.lookup h.hostname m = some h.ip_address := by
  unfold hostChanged
  cases hlk : List.lookup h.hostname m with
  | none => simp
  | some ip => simp

theorem needs_rewrite_eq_false_iff (m : List (String × String)) (hosts : List host_config) :
    needs_rewrite m hosts = false ↔
      (m.length = hosts.length ∧
        ∀ h ∈ hosts, List.lookup h.hostname m = some h.ip_address) := by
  unfold needs_rewrite
  have hor : ∀ a b : Bool, ((a || b) = false ↔ a = false ∧ b = false) := by decide
  rw [hor]
  constructor
  · rintro ⟨ha, hb⟩
    constructor
    · simpa using ha
    · intro h hh
      rw [← hostChanged_eq_false_iff]
      cases hcc : hostChanged m h with
      | false => rfl
      | true =>
        have : hosts.any (hostChanged m) = true := List.any_eq_true.2 ⟨h, hh, hcc⟩
        rw [this] at hb
        exact absurd hb (by decide)
  · rintro ⟨ha, hb⟩
    constructor
    · simp [ha]
    · cases hany : hosts.any (hostChanged m) with
      | false => rfl
      | true =>
        obtain ⟨h, hh, hch⟩ := List.any_eq_true.1 hany
        have hf := (hostChanged_eq_false_iff m h).2 (hb h hh)
        rw [hf] at hch
        exact absurd hch (by decide)

/-! ## The configuration loader -/

theorem loadHostConfigAux_skip (line : String) (rest : List String) (n : Nat)
    (acc : List host_config) (h : line.data = [] ∨ goStartsWith line "#" = true) :
    loadHostConfigAux (line :: rest) n acc = loadHostConfigAux rest (n + 1) acc := by
  rcases h with h | h
  · conv_lhs => rw [loadHostConfigAux]
    rw [h]
    rfl
  · conv_lhs => rw [loadHostConfigAux]
    rw [h]
    cases h2 : line.data.isEmpty <;> rfl

theorem loadHostConfigAux_data (line : String) (rest : List String) (n : Nat)
    (acc : List host_config) (hn srv : String)
    (h1 : ¬(line.data = [] ∨ goStartsWith line "#" = true))
    (h2 : fields line = [hn, srv]) :
    loadHostConfigAux (line :: rest) n acc =
      loadHostConfigAux rest (n + 1) (acc ++ [⟨hn, srv, NIL⟩]) := by
  obtain ⟨h1a, h1b⟩ := not_or.1 h1
  have e1 : line.data.isEmpty = false := by
    cases hd : line.data with
    | nil => exact absurd hd h1a
    | cons c cs => rfl
  have e2 : goStartsWith line "#" = false := by
    cases hg : goStartsWith line "#" with
    | false => rfl
    | true => exact absurd hg h1b
  conv_lhs => rw [loadHostConfigAux]
  rw [e1, e2, h2]
  rfl

theorem loadHostConfigAux_err (line : String) (rest : List String) (n : Nat)
    (acc : List host_config)
    (h1 : ¬(line.data = [] ∨ goStartsWith line "#" = true))
    (h2 : (fields line).length ≠ 2) :
    loadHostConfigAux (line :: rest) n acc =
      .error ("Unexpected input on line " ++ toString n ++ ": " ++ line) := by
  obtain ⟨h1a, h1b⟩ := not_or.1 h1
  have e1 : line.data.isEmpty = false := by
    cases hd : line.data with
    | nil => exact absurd hd h1a
    | cons c cs => rfl
  have e2 : goStartsWith line "#" = false := by
    cases hg : goStartsWith line "#" with
    | false => rfl
    | true => exact absurd hg h1b
  conv_lhs => rw [loadHostConfigAux]
  rw [e1, e2]
  rcases hf : fields line with _ | ⟨a, _ | ⟨b, _ | ⟨c, t⟩⟩⟩
  · rfl
  · rfl
  · exact absurd (by rw [hf]; rfl) h2
  · rfl

theorem loadHostConfigAux_error_at (pre : List String) :
    ∀ (n : Nat) (acc : List host_config) (line : String) (post : List String),
      (∀ l ∈ pre, l.data = [] ∨ goStartsWith l "#" = true ∨ (fields l).length = 2) →
      ¬(line.data = [] ∨ goStartsWith line "#" = true) → (fields line).length ≠ 2 →
      loadHostConfigAux (pre ++ line :: post) n acc =
        .error ("Unexpected input on line " ++ toString (n + pre.length) ++ ": " ++ line) := by
  induction pre with
  | nil =>
    intro n acc line post _ hb hf
    simpa using loadHostConfigAux_err line post n acc hb hf
  | cons p ps ih =>
    intro n acc line post hg hb hf
    rw [List.cons_append]
    by_cases hskip : p.data = [] ∨ goStartsWith p "#" = true
    · rw [loadHostConfigAux_skip p _ n acc hskip]
      rw [ih (n + 1) acc line post (fun l hl => hg l (by simp [hl])) hb hf]
      have harith : n + 1 + ps.length = n + (p :: ps).length := by
        simp only [List.length_cons]
        omega
      rw [harith]
    · have hlen : (fields p).length = 2 := by
        rcases hg p (by simp) with h | h | h
        · exact absurd (Or.inl h) hskip
        · exact absurd (Or.inr h) hskip
        · exact h
      rcases hfp : fields p with _ | ⟨a, _ | ⟨b, _ | ⟨c, t3⟩⟩⟩
      · rw [hfp] at hlen
        simp at hlen
      · rw [hfp] at hlen
        simp at hlen
      · rw [loadHostConfigAux_data p _ n acc a b hskip hfp]
        rw [ih (n + 1) _ line post (fun l hl => hg l (by simp [hl])) hb hf]
        have harith : n + 1 + ps.length = n + (p :: ps).length := by
          simp only [List.length_cons]
          omega
        rw [harith]
      · rw [hfp] at hlen
        simp at hlen

theorem loadHostConfigAux_ok (lines : List String) :
    ∀ (n : Nat) (acc : List host_config),
      (∀ l ∈ lines, l.data = [] ∨ goStartsWith l "#" = true ∨ (fields l).length = 2) →
      loadHostConfigAux lines n acc =
        .ok (acc ++ lines.filterMap fun l =>
          if l.data = [] ∨ goStartsWith l "#" = true then none
          else match fields l with
               | [hn, srv] => some ⟨hn, srv, NIL⟩
               | _ => none) := by
  induction lines with
  | nil =>
    intro n acc _
    simp [loadHostConfigAux]
  | cons p ps ih =>
    intro n acc hg
    by_cases hskip : p.data = [] ∨ goStartsWith p "#" = true
    · rw [loadHostConfigAux_skip p ps n acc hskip,
        ih (n + 1) acc (fun l hl => hg l (by simp [hl]))]
      simp [List.filterMap_cons, hskip]
    · have hlen : (fields p).length = 2 := by
        rcases hg p (by simp) with h | h | h
        · exact absurd (Or.inl h) hskip
        · exact absurd (Or.inr h) hskip
        · exact h
      rcases hfp : fields p with _ | ⟨a, _ | ⟨b, _ | ⟨c, t3⟩⟩⟩
      · rw [hfp] at hlen
        simp at hlen
      · rw [hfp] at hlen
        simp at hlen
      · rw [loadHostConfigAux_data p ps n acc a b hskip hfp,
          ih (n + 1) _ (fun l hl => hg l (by simp [hl]))]
        simp [List.filterMap_cons, hskip, hfp, List.append_assoc]
      · rw [hfp] at hlen
        simp at hlen

theorem loadHostConfigAux_nil_init (lines : List String) :
    ∀ (n : Nat) (acc cfgs : List host_config),
      (∀ c ∈ acc, c.ip_address = NIL) → loadHostConfigAux lines n acc = .ok cfgs →
      ∀ c ∈ cfgs, c.ip_address = NIL := by
  induction lines with
  | nil =>
    intro n acc cfgs hacc heq
    have h2 : acc = cfgs := by
      have h3 : Except.ok (ε := String) acc = .ok cfgs := heq
      injection h3
    rw [← h2]
    exact hacc
  | cons p ps ih =>
    intro n acc cfgs hacc heq
    by_cases hskip : p.data = [] ∨ goStartsWith p "#" = true
    · rw [loadHostConfigAux_skip p ps n acc hskip] at heq
      exact ih (n + 1) acc cfgs hacc heq
    · rcases hfp : fields p with _ | ⟨a, _ | ⟨b, _ | ⟨c2, t3⟩⟩⟩
      · rw [loadHostConfigAux_err p ps n acc hskip (by rw [hfp]; simp)] at heq
        cases heq
      · rw [loadHostConfigAux_err p ps n acc hskip (by rw [hfp]; simp)] at heq
        cases heq
      · rw [loadHostConfigAux_data p ps n acc a b hskip hfp] at heq
        refine ih (n + 1) _ cfgs ?_ heq
        intro c hc
        rcases List.mem_append.1 hc with h | h
        · exact hacc c h
        · rw [List.mem_singleton.1 h]
      · rw [loadHostConfigAux_err p ps n acc hskip (by rw [hfp]; simp)] at heq
        cases heq

/-! ## lookupIP classification -/

theorem firstA_spec (answers : List DnsAnswer) :
    (aRecords answers = [] → firstA answers = MISSING) ∧
    (∀ addr rest, aRecords answers = addr :: rest → firstA answers = addr) := by
  induction answers with
  | nil =>
    refine ⟨fun _ => rfl, fun addr rest h => ?_⟩
    have h2 : ([] : List String) = addr :: rest := h
    cases h2
  | cons a t ih =>
    cases a with
    | A s =>
      refine ⟨?_, ?_⟩
      · intro h
        have h2 : s :: aRecords t = [] := h
        cases h2
      · intro addr rest h
        have h2 : s :: aRecords t = addr :: rest := h
        injection h2 with h3 h4
    | other =>
      refine ⟨fun h => ih.1 h, fun addr rest h => ih.2 addr rest h⟩

/-! ## Claims -/

/-- C1: the claim says lines after the end sentinel are preserved unchanged in
the rewritten file, kept in a sequence distinct from the IN-region lines. The
code violates this: dnspin.go line 111 assigns the extended post_lines slice
to pin_lines, so post_lines stays empty and post-region lines are dropped from
the rewritten file (while clobbering the collected in-region lines). This
theorem evaluates the model at a failing input: the post line "post1" is in
the input file but absent from the rewritten output. -/
theorem c1_post_lines_dropped :
    writeHostsFileModel ["keep", DNSPIN_BEGIN, "1.2.3.4\ta", DNSPIN_END, "post1"]
        [⟨"a", "s", "1.2.3.4"⟩] =
      some ["keep", DNSPIN_BEGIN, "1.2.3.4\ta", DNSPIN_END] ∧
    "post1" ∈ ["keep", DNSPIN_BEGIN, "1.2.3.4\ta", DNSPIN_END, "post1"] ∧
    "post1" ∉ ["keep", DNSPIN_BEGIN, "1.2.3.4\ta", DNSPIN_END] := by
  refine ⟨by decide, by decide, by decide⟩

/-- C2 counterexample: the claim makes POST a terminal state. In the code any
line equal to the begin sentinel sets the state to IN regardless of the
current state, so after begin-end-begin the scanner is back in IN, not in
POST. -/
theorem c2_counterexample :
    (scanFile [DNSPIN_BEGIN, DNSPIN_END, DNSPIN_BEGIN]).location = IN_PIN ∧
    IN_PIN ≠ POST_PIN := by
  refine ⟨by decide, by decide⟩

/-- C2 (amended): the state machine starts in PRE; any line exactly equal to
the begin sentinel sets the state to IN and any line exactly equal to the end
sentinel sets it to POST, from any state (POST is not terminal); any other
line leaves the state unchanged; a file with no sentinel lines leaves every
line in PRE with an empty existing managed region, and a rewrite then appends
the new managed region after all existing content. -/
theorem c2_state_machine :
    (∀ s : ScanState, (scanStep s DNSPIN_BEGIN).location = IN_PIN ∧
      (scanStep s DNSPIN_END).location = POST_PIN) ∧
    (∀ (s : ScanState) (line : String), line ≠ DNSPIN_BEGIN → line ≠ DNSPIN_END →
      (scanStep s line).location = s.location) ∧
    (∀ lines : List String, (∀ l ∈ lines, noSentinel l) →
      scanFile lines = ⟨PRE_PIN, lines, [], []⟩) ∧
    (∀ (lines : List String) (hosts : List host_config) (out : List String),
      (∀ l ∈ lines, noSentinel l) → writeHostsFileModel lines hosts = some out →
      out = lines ++ [DNSPIN_BEGIN] ++ renderRegion [] hosts ++ [DNSPIN_END]) := by
  refine ⟨?_, ?_, ?_, ?_⟩
  · intro s
    constructor
    · unfold scanStep
      rw [if_pos rfl]
    · unfold scanStep
      rw [if_neg (by decide), if_pos rfl]
  · intro s line h1 h2
    unfold scanStep
    rw [if_neg h1, if_neg h2]
    split_ifs <;> rfl
  · exact scanFile_no_sentinel_file
  · intro lines hosts out hns hw
    rw [writeHostsFileModel_eq, scanFile_no_sentinel_file lines hns] at hw
    split at hw
    · injection hw with hout
      rw [← hout]
      simp [parseMappings]
    · cases hw

/-- Witness for c2_state_machine at concrete inputs. -/
theorem c2_state_machine_witness :
    scanFile ["10.0.0.1 localhost", "::1 localhost"] =
      ⟨PRE_PIN, ["10.0.0.1 localhost", "::1 localhost"], [], []⟩ ∧
    (scanStep ⟨POST_PIN, [], [], []⟩ "x").location = (⟨POST_PIN, [], [], []⟩ : ScanState).location := by
  constructor
  · exact c2_state_machine.2.2.1 ["10.0.0.1 localhost", "::1 localhost"] (by decide)
  · exact c2_state_machine.2.1 ⟨POST_PIN, [], [], []⟩ "x" (by decide) (by decide)

/-- C3 counterexample: the claim says an unchanged cycle against an unchanged
environment never touches the file, for every kind of outcome including
NoRecord. With one NoRecord host, the managed region the code writes is empty,
so current_mappings is empty while the host list has one entry; needs_rewrite
is therefore true on every cycle and the file is rewritten (with identical
content) each time: here the model writes even though output equals input. -/
theorem c3_counterexample :
    writeHostsFileModel [DNSPIN_BEGIN, DNSPIN_END] [⟨"a", "ns1", MISSING⟩] =
      some [DNSPIN_BEGIN, DNSPIN_END] := by
  decide

/-- C3 (amended): writeHostsFile leaves the file untouched precisely when the
PersistedMapping parsed from the scanned pin lines has the same number of
entries as the host list and maps every host's name to exactly its current
ip_address; because a NoRecord host is omitted from the rendered region and a
LookupFailed host is compared against the ERROR marker, cycles containing such
outcomes rewrite the file every time even when the content is unchanged, so
the no-op guarantee only covers cycles whose hosts all carry matching Resolved
values. -/
theorem c3_needs_rewrite_iff (fileLines : List String) (hosts : List host_config) :
    writeHostsFileModel fileLines hosts = none ↔
      ((parseMappings (scanFile fileLines).pin_lines).length = hosts.length ∧
        ∀ h ∈ hosts,
          List.lookup h.hostname (parseMappings (scanFile fileLines).pin_lines) =
            some h.ip_address) := by
  have key := needs_rewrite_eq_false_iff (parseMappings (scanFile fileLines).pin_lines) hosts
  rw [writeHostsFileModel_eq]
  cases hnr : needs_rewrite (parseMappings (scanFile fileLines).pin_lines) hosts with
  | true =>
    rw [if_pos rfl]
    constructor
    · intro h
      exact absurd h (by simp)
    · intro hr
      exact absurd (key.2 hr) (by rw [hnr]; decide)
  | false =>
    rw [if_neg (by decide)]
    exact ⟨fun _ => key.1 hnr, fun _ => rfl⟩

/-- C4: the claim says the temporary file is created in the same
directory/filesystem as the target. The code hands "/tmp" to ioutil.TempFile
(dnspin.go line 143) while the target is "/etc/hosts", so the temporary file
lives in a different directory from the target and, on systems where /tmp is
its own filesystem, os.Rename cannot atomically replace the target at all. -/
theorem c4_tempfile_wrong_directory :
    tempFileDir ≠ dirname hostsFilePath ∧ dirname hostsFilePath = "/etc" ∧
      tempFileDir = "/tmp" := by
  refine ⟨by decide, by decide, rfl⟩

/-- C5: for a host whose outcome is LookupFailed (the ERROR marker), the
rendered managed region contains, at that host's position, one comment line
naming the cached fallback and the failed server immediately followed by one
mapping line reusing the cached IP when the parsed mapping has an entry for
the hostname, and only one failure comment line with no mapping line when it
does not. -/
theorem c5_lookup_failed_render (m : List (String × String)) (hs1 hs2 : List host_config)
    (h : host_config) (he : h.ip_address = ERROR) :
    (∀ ip, List.lookup h.hostname m = some ip →
        renderRegion m (hs1 ++ h :: hs2) =
          renderRegion m hs1 ++
            ("# " ++ h.hostname ++ ": cached value, error during lookup to " ++
              h.dns_server) ::
            (ip ++ "\t" ++ h.hostname) :: renderRegion m hs2) ∧
    (List.lookup h.hostname m = none →
        renderRegion m (hs1 ++ h :: hs2) =
          renderRegion m hs1 ++
            ("# " ++ h.hostname ++ ": error during lookup to " ++ h.dns_server) ::
            renderRegion m hs2) := by
  have hsplit : renderRegion m (hs1 ++ h :: hs2) =
      renderRegion m hs1 ++ (renderHost m h ++ renderRegion m hs2) := by
    rw [renderRegion_append, renderRegion_cons]
  constructor
  · intro ip hip
    rw [hsplit]
    unfold renderHost
    rw [he, if_pos rfl, hip]
    rfl
  · intro hnone
    rw [hsplit]
    unfold renderHost
    rw [he, if_pos rfl, hnone]
    rfl

/-- Witness for c5_lookup_failed_render at concrete inputs, one per branch. -/
theorem c5_lookup_failed_render_witness :
    renderRegion [("a", "1.2.3.4")] ([] ++ (⟨"a", "ns1", ERROR⟩ : host_config) :: []) =
      renderRegion [("a", "1.2.3.4")] [] ++
        ("# " ++ "a" ++ ": cached value, error during lookup to " ++ "ns1") ::
        ("1.2.3.4" ++ "\t" ++ "a") :: renderRegion [("a", "1.2.3.4")] [] ∧
    renderRegion [] ([] ++ (⟨"b", "ns2", ERROR⟩ : host_config) :: []) =
      renderRegion [] [] ++
        ("# " ++ "b" ++ ": error during lookup to " ++ "ns2") :: renderRegion [] [] := by
  constructor
  · exact (c5_lookup_failed_render [("a", "1.2.3.4")] [] [] ⟨"a", "ns1", ERROR⟩ rfl).1
      "1.2.3.4" (by decide)
  · exact (c5_lookup_failed_render [] [] [] ⟨"b", "ns2", ERROR⟩ rfl).2 (by decide)

/-- C6: a host whose outcome is NoRecord (the MISSING marker) contributes
nothing to the rendered managed region, in particular no mapping line, even
when the parsed mapping holds a prior IP for its hostname (the mapping m is
arbitrary here, so in particular it may contain the hostname). -/
theorem c6_no_record_render (m : List (String × String)) (hs1 hs2 : List host_config)
    (h : host_config) (hm : h.ip_address = MISSING) :
    renderRegion m (hs1 ++ h :: hs2) = renderRegion m hs1 ++ renderRegion m hs2 := by
  have hnil : renderHost m h = [] := by
    unfold renderHost
    rw [hm, if_neg (by decide), if_pos rfl]
  rw [renderRegion_append, renderRegion_cons, hnil, List.nil_append]

/-- Witness for c6_no_record_render: the prior mapping still holds an IP for
hostname a, yet nothing is rendered for it. -/
theorem c6_no_record_render_witness :
    renderRegion [("a", "1.2.3.4")]
        ([⟨"b", "ns1", "2.2.2.2"⟩] ++ (⟨"a", "ns1", MISSING⟩ : host_config) :: []) =
      renderRegion [("a", "1.2.3.4")] [⟨"b", "ns1", "2.2.2.2"⟩] ++
        renderRegion [("a", "1.2.3.4")] [] :=
  c6_no_record_render [("a", "1.2.3.4")] [⟨"b", "ns1", "2.2.2.2"⟩] [] ⟨"a", "ns1", MISSING⟩ rfl

/-- C7 counterexample: the claim only requires hostnames and IP strings to
contain no whitespace. The IP string "#1" contains no whitespace, but its
mapping line starts with the comment character, so the in-region scan drops it
and re-parsing yields the empty mapping instead of the input mapping. -/
theorem c7_counterexample :
    parseMappings (scanFile ([DNSPIN_BEGIN] ++
        renderRegion [] [⟨"a", "s", "#1"⟩] ++ [DNSPIN_END])).pin_lines = [] ∧
    hostsToMapping [⟨"a", "s", "#1"⟩] = [("a", "#1")] ∧
    (∀ c ∈ ("#1" : String).data, isGoSpace c = false) ∧
    (∀ c ∈ ("a" : String).data, isGoSpace c = false) ∧
    ([] : List (String × String)) ≠ [("a", "#1")] := by
  refine ⟨by decide, by decide, by decide, by decide, by decide⟩

/-- C7 (amended): for hosts whose results are all Resolved, with hostnames and
IP strings that are nonempty, contain no whitespace, and whose IP does not
begin with the comment character, rendering the managed region between the
sentinels and re-parsing it through the scanner reproduces exactly the
hostname-to-IP mapping of the input list. -/
theorem c7_round_trip (m0 : List (String × String)) (hosts : List host_config)
    (hres : ∀ h ∈ hosts,
      h.ip_address ≠ ERROR ∧ h.ip_address ≠ MISSING ∧
      h.ip_address.data ≠ [] ∧ h.hostname.data ≠ [] ∧
      (∀ c ∈ h.ip_address.data, isGoSpace c = false) ∧
      (∀ c ∈ h.hostname.data, isGoSpace c = false) ∧
      goStartsWith h.ip_address "#" = false) :
    parseMappings
        (scanFile ([DNSPIN_BEGIN] ++ renderRegion m0 hosts ++ [DNSPIN_END])).pin_lines =
      hostsToMapping hosts := by
  have hren : renderRegion m0 hosts = hosts.map fun h => h.ip_address ++ "\t" ++ h.hostname :=
    renderRegion_resolved m0 hosts (fun h hh => ⟨(hres h hh).1, (hres h hh).2.1⟩)
  rw [hren, scanFile_region _ (mapping_lines_no_sentinel hosts)]
  show parseMappings
      ((hosts.map fun h => h.ip_address ++ "\t" ++ h.hostname).filter
        (fun l => !goStartsWith l "#")) = hostsToMapping hosts
  rw [filter_mapping_lines hosts
    (fun h2 hh => ⟨(hres h2 hh).2.2.1, (hres h2 hh).2.2.2.2.2.2⟩)]
  unfold parseMappings hostsToMapping
  exact foldl_parse_mapping_lines hosts []
    (fun h hh => ⟨(hres h hh).2.2.1, (hres h hh).2.2.2.1, (hres h hh).2.2.2.2.1,
      (hres h hh).2.2.2.2.2.1⟩)

/-- Witness for c7_round_trip at a concrete resolved host. -/
theorem c7_round_trip_witness :
    parseMappings (scanFile ([DNSPIN_BEGIN] ++
        renderRegion [] [⟨"a", "s", "1.2.3.4"⟩] ++ [DNSPIN_END])).pin_lines =
      hostsToMapping [⟨"a", "s", "1.2.3.4"⟩] :=
  c7_round_trip [] [⟨"a", "s", "1.2.3.4"⟩] (by decide)

/-- C8: lookupIP classifies every lookup into exactly one of three outcomes:
a failed exchange is returned as the error (LookupFailed); a successful
exchange with zero A-record answers returns the MISSING marker (NoRecord);
a successful exchange with at least one A-record answer returns the first
A record's address, with no rotation across records. -/
theorem c8_lookup_classification (exch : Except String (List DnsAnswer)) :
    (∀ e, exch = .error e → lookupIP_classify exch = .error e) ∧
    (∀ answers, exch = .ok answers →
      (aRecords answers = [] → lookupIP_classify exch = .ok MISSING) ∧
      (∀ addr rest, aRecords answers = addr :: rest →
        lookupIP_classify exch = .ok addr)) := by
  constructor
  · intro e he
    rw [he]
    rfl
  · intro answers ha
    subst ha
    constructor
    · intro h
      show Except.ok (firstA answers) = _
      rw [(firstA_spec answers).1 h]
    · intro addr rest h
      show Except.ok (firstA answers) = _
      rw [(firstA_spec answers).2 addr rest h]

/-- Witness for c8_lookup_classification, one application per outcome. -/
theorem c8_lookup_classification_witness :
    lookupIP_classify (.error "timeout") = .error "timeout" ∧
    lookupIP_classify (.ok [.other]) = .ok MISSING ∧
    lookupIP_classify (.ok [.other, .A "1.2.3.4", .A "5.6.7.8"]) = .ok "1.2.3.4" := by
  refine ⟨?_, ?_, ?_⟩
  · exact (c8_lookup_classification (.error "timeout")).1 "timeout" rfl
  · exact ((c8_lookup_classification (.ok [.other])).2 [.other] rfl).1 rfl
  · exact ((c8_lookup_classification (.ok [.other, .A "1.2.3.4", .A "5.6.7.8"])).2
      [.other, .A "1.2.3.4", .A "5.6.7.8"] rfl).2 "1.2.3.4" ["5.6.7.8"] rfl

/-- C9: loadHostConfig skips blank lines and lines whose first character is
the comment character; every other line must split into exactly two fields,
producing an entry whose last result is the NIL marker; any other field count
fails the whole load with an error naming the 1-based line number and the raw
line text, regardless of what follows (all-or-nothing). -/
theorem c9_load_host_config :
    (∀ lines : List String,
        (∀ l ∈ lines, l.data = [] ∨ goStartsWith l "#" = true ∨ (fields l).length = 2) →
        loadHostConfig lines =
          .ok (lines.filterMap fun l =>
            if l.data = [] ∨ goStartsWith l "#" = true then none
            else match fields l with
                 | [hn, srv] => some ⟨hn, srv, NIL⟩
                 | _ => none)) ∧
    (∀ (pre : List String) (line : String) (post : List String),
        (∀ l ∈ pre, l.data = [] ∨ goStartsWith l "#" = true ∨ (fields l).length = 2) →
        ¬(line.data = [] ∨ goStartsWith line "#" = true) → (fields line).length ≠ 2 →
        loadHostConfig (pre ++ line :: post) =
          .error ("Unexpected input on line " ++ toString (pre.length + 1) ++ ": " ++
            line)) ∧
    (∀ (lines : List String) (cfgs : List host_config),
        loadHostConfig lines = .ok cfgs → ∀ c ∈ cfgs, c.ip_address = NIL) := by
  refine ⟨?_, ?_, ?_⟩
  · intro lines hg
    unfold loadHostConfig
    rw [loadHostConfigAux_ok lines 1 [] hg]
    rfl
  · intro pre line post hg hb hf
    unfold loadHostConfig
    rw [loadHostConfigAux_error_at pre 1 [] line post hg hb hf]
    have harith : 1 + pre.length = pre.length + 1 := Nat.add_comm 1 pre.length
    rw [harith]
  · intro lines cfgs h
    exact loadHostConfigAux_nil_init lines 1 [] cfgs (by simp) h

/-- Witness for c9_load_host_config: a malformed third line fails the whole
load naming line 3, and a well-formed file loads with NIL-initialized
entries. -/
theorem c9_load_host_config_witness :
    loadHostConfig ["# c", "h s", "a b c", "x y"] =
      .error "Unexpected input on line 3: a b c" ∧
    loadHostConfig ["", "# c", "h s"] = .ok [⟨"h", "s", NIL⟩] := by
  constructor
  · have h := c9_load_host_config.2.1 ["# c", "h s"] "a b c" ["x y"]
      (by decide) (by decide) (by decide)
    exact h.trans (congrArg Except.error (by decide))
  · have h := c9_load_host_config.1 ["", "# c", "h s"] (by decide)
    exact h.trans (congrArg Except.ok (by decide))

/-- C10: whatever the input file - zero, duplicated or out-of-order sentinel
lines included - any rewritten output contains exactly one begin sentinel and
exactly one end sentinel, in that order: the scanner consumes sentinel lines
instead of copying them into the three line sequences, and the renderer never
produces a sentinel-shaped line. -/
theorem c10_sentinels (fileLines : List String) (hosts : List host_config)
    (out : List String) (hw : writeHostsFileModel fileLines hosts = some out) :
    out.count DNSPIN_BEGIN = 1 ∧ out.count DNSPIN_END = 1 ∧
    ∃ xs ys zs, out = xs ++ [DNSPIN_BEGIN] ++ ys ++ [DNSPIN_END] ++ zs := by
  rw [writeHostsFileModel_eq] at hw
  split at hw
  · injection hw with hout
    obtain ⟨hpre, hpin, hpost⟩ := scanFile_no_sentinel fileLines
    have hreg := renderRegion_no_sentinel (parseMappings (scanFile fileLines).pin_lines) hosts
    have cpreB : DNSPIN_BEGIN ∉ (scanFile fileLines).pre_lines :=
      fun hm => (hpre _ hm).1 rfl
    have cpreE : DNSPIN_END ∉ (scanFile fileLines).pre_lines :=
      fun hm => (hpre _ hm).2 rfl
    have cregB : DNSPIN_BEGIN ∉
        renderRegion (parseMappings (scanFile fileLines).pin_lines) hosts :=
      fun hm => (hreg _ hm).1 rfl
    have cregE : DNSPIN_END ∉
        renderRegion (parseMappings (scanFile fileLines).pin_lines) hosts :=
      fun hm => (hreg _ hm).2 rfl
    have cpostB : DNSPIN_BEGIN ∉ (scanFile fileLines).post_lines :=
      fun hm => (hpost _ hm).1 rfl
    have cpostE : DNSPIN_END ∉ (scanFile fileLines).post_lines :=
      fun hm => (hpost _ hm).2 rfl
    have hBB : (DNSPIN_BEGIN == DNSPIN_BEGIN) = true := by decide
    have hBE : (DNSPIN_BEGIN == DNSPIN_END) = false := by decide
    have hEB : (DNSPIN_END == DNSPIN_BEGIN) = false := by decide
    have hEE : (DNSPIN_END == DNSPIN_END) = true := by decide
    rw [← hout]
    refine ⟨?_, ?_, ?_⟩
    · simp [List.count_append, List.count_cons, List.count_nil,
        List.count_eq_zero.2 cpreB, List.count_eq_zero.2 cregB,
        List.count_eq_zero.2 cpostB, hBB, hEB]
    · simp [List.count_append, List.count_cons, List.count_nil,
        List.count_eq_zero.2 cpreE, List.count_eq_zero.2 cregE,
        List.count_eq_zero.2 cpostE, hBE, hEE]
    · exact ⟨(scanFile fileLines).pre_lines,
        renderRegion (parseMappings (scanFile fileLines).pin_lines) hosts,
        (scanFile fileLines).post_lines, rfl⟩
  · cases hw

/-- Witness for c10_sentinels at a concrete rewrite. -/
theorem c10_sentinels_witness :
    (["x", DNSPIN_BEGIN, "1.2.3.4\ta", DNSPIN_END] : List String).count DNSPIN_BEGIN = 1 ∧
    (["x", DNSPIN_BEGIN, "1.2.3.4\ta", DNSPIN_END] : List String).count DNSPIN_END = 1 ∧
    ∃ xs ys zs, (["x", DNSPIN_BEGIN, "1.2.3.4\ta", DNSPIN_END] : List String) =
      xs ++ [DNSPIN_BEGIN] ++ ys ++ [DNSPIN_END] ++ zs :=
  c10_sentinels ["x"] [⟨"a", "s", "1.2.3.4"⟩]
    ["x", DNSPIN_BEGIN, "1.2.3.4\ta", DNSPIN_END] (by decide)
